import Mathlib

/-!
Verification development for the advanced-python-scraper repository.

The Python sources (src/advanced_scraper.py, src/scraper.py) are shallowly
embedded: Python strings become `List Char` (sequences of code points),
float delay durations become `ℚ`, fallible calls become `Except`/`Option`,
and the cooperative-concurrency gate becomes a small-step transition
system.  Suspensions (`asyncio.sleep`) and fetch attempts are recorded as
explicit event traces.  Regex character classes (`\w`, whitespace) are
modelled over ASCII.
-/

namespace Scraper

/-- Python exception classes that the scraper code raises or catches. -/
inductive PyErr where
  | importError
  | valueError
  | fetchError
deriving DecidableEq

/-- Observable events of one logical fetch: a fetch attempt with its 0-based
index, a backoff suspension of a given duration (seconds), or a rate-limit
suspension of a given duration. -/
inductive FetchEvent where
  | att (i : Nat)
  | backoff (d : ℚ)
  | rate (d : ℚ)
deriving DecidableEq

/-- Event is a fetch attempt. -/
def isAtt : FetchEvent → Bool
  | .att _ => true
  | _ => false

/-- Event is a backoff suspension. -/
def isBackoff : FetchEvent → Bool
  | .backoff _ => true
  | _ => false

/-- Event is a rate-limit suspension. -/
def isRate : FetchEvent → Bool
  | .rate _ => true
  | _ => false

/-- An attempt body outcome is an exception (anything the bare `except`
clause of the retry loops catches: non-2xx `raise_for_status`, transport
error, timeout). -/
def exceptFails : Except PyErr (List Char) → Bool
  | .ok _ => false
  | .error _ => true

/-- The retry loop shared by the three `scrape_page` implementations in
src/advanced_scraper.py (lines 83-100, 123-139, 170-190):
`for attempt in range(max_retries): try: <fetch>; except: if attempt <
max_retries - 1: await asyncio.sleep(<dur attempt>) else: return None`,
with `return None` after the loop.  `r` is the number of remaining loop
iterations and `a` the current attempt index, so a fetch runs
`backendLoop dur outcome n 0`.  `outcome a` models what the attempt body at
index `a` does: return the page text (`Except.ok`) or raise
(`Except.error`, caught by the bare `except`).  `dur a` is the duration
the backend sleeps between failed attempt `a` and the next attempt. -/
def backendLoop (dur : Nat → ℚ) (outcome : Nat → Except PyErr (List Char)) :
    Nat → Nat → Option (List Char) × List FetchEvent
  | 0, _ => (none, [])
  | r + 1, a =>
    match outcome a with
    | .ok s => (some s, [.att a])
    | .error _ =>
      if r = 0 then (none, [.att a])
      else
        let p := backendLoop dur outcome r (a + 1)
        (p.1, .att a :: .backoff (dur a) :: p.2)

/-- `AioHttpBackend.scrape_page` (src/advanced_scraper.py lines 79-100):
raises ImportError when aiohttp is unavailable, otherwise runs the retry
loop with backoff duration `self.backoff_factor * (2 ** attempt)`. -/
def aioScrapePage (avail : Bool) (b : ℚ) (n : Nat)
    (outcome : Nat → Except PyErr (List Char)) :
    Except PyErr (Option (List Char) × List FetchEvent) :=
  if avail then .ok (backendLoop (fun i => b * 2 ^ i) outcome n 0)
  else .error .importError

/-- `RequestsHtmlBackend.scrape_page` (src/advanced_scraper.py lines
119-139): raises ImportError when requests-html is unavailable, otherwise
runs the retry loop with the fixed suspension `asyncio.sleep(1)`.  Note
this backend neither stores nor reads `backoff_factor`. -/
def rhScrapePage (avail : Bool) (n : Nat)
    (outcome : Nat → Except PyErr (List Char)) :
    Except PyErr (Option (List Char) × List FetchEvent) :=
  if avail then .ok (backendLoop (fun _ => 1) outcome n 0)
  else .error .importError

/-- `PlaywrightBackend.scrape_page` (src/advanced_scraper.py lines 166-190):
raises ImportError when playwright is unavailable, otherwise runs the retry
loop with the fixed suspension `asyncio.sleep(2)`. -/
def pwScrapePage (avail : Bool) (n : Nat)
    (outcome : Nat → Except PyErr (List Char)) :
    Except PyErr (Option (List Char) × List FetchEvent) :=
  if avail then .ok (backendLoop (fun _ => 2) outcome n 0)
  else .error .importError

/-- The event trace of a fetch whose every attempt fails: `r` attempts
starting at index `a`, with a suspension of `dur i` after every failed
attempt `i` except the last, and nothing after the final attempt. -/
def failSched (dur : Nat → ℚ) : Nat → Nat → List FetchEvent
  | 0, _ => []
  | 1, a => [.att a]
  | r + 2, a => .att a :: .backoff (dur a) :: failSched dur (r + 1) (a + 1)

/-- The event trace of a fetch that fails `k` times starting at attempt `a`
and then succeeds on attempt `a + k`. -/
def succSched (dur : Nat → ℚ) : Nat → Nat → List FetchEvent
  | 0, a => [.att a]
  | k + 1, a => .att a :: .backoff (dur a) :: succSched dur k (a + 1)

/-- `AdvancedBookScraper.scrape_single_page` (src/advanced_scraper.py lines
395-400): when rate limiting is enabled it suspends once for
`self.request_delay` and then calls `self.backend.scrape_page(url)`, whose
retry loop runs with no further rate-limit suspensions. -/
def advScrapeSinglePage (enabled : Bool) (d : ℚ)
    (backendRun : Except PyErr (Option (List Char) × List FetchEvent)) :
    Except PyErr (Option (List Char) × List FetchEvent) :=
  match backendRun with
  | .ok p => .ok (p.1, (if enabled then [FetchEvent.rate d] else []) ++ p.2)
  | .error e => .error e

/-- The retry loop of `BookScraper.scrape_single_page` (src/scraper.py lines
209-253): each iteration first suspends for the rate-limit delay (when
enabled), then attempts the fetch; on an exception it suspends
`backoff_factor * (2 ** attempt)` before the next attempt, or returns None
after the final attempt. -/
def bookLoop (enabled : Bool) (d b : ℚ)
    (outcome : Nat → Except PyErr (List Char)) :
    Nat → Nat → Option (List Char) × List FetchEvent
  | 0, _ => (none, [])
  | r + 1, a =>
    let pre := if enabled then [FetchEvent.rate d] else []
    match outcome a with
    | .ok s => (some s, pre ++ [.att a])
    | .error _ =>
      if r = 0 then (none, pre ++ [.att a])
      else
        let p := bookLoop enabled d b outcome r (a + 1)
        (p.1, pre ++ .att a :: .backoff (b * 2 ^ a) :: p.2)

/-- `BookScraper.scrape_single_page` (src/scraper.py lines 209-253) as one
logical fetch of `n = max_attempts` attempts. -/
def bookScrapeSinglePage (enabled : Bool) (d b : ℚ) (n : Nat)
    (outcome : Nat → Except PyErr (List Char)) :
    Option (List Char) × List FetchEvent :=
  bookLoop enabled d b outcome n 0

/-- The event trace of a rate-limited (enabled) `BookScraper` fetch whose
every attempt fails: a rate suspension before every attempt. -/
def bookFailSched (d b : ℚ) : Nat → Nat → List FetchEvent
  | 0, _ => []
  | 1, a => [.rate d, .att a]
  | r + 2, a =>
      .rate d :: .att a :: .backoff (b * 2 ^ a) :: bookFailSched d b (r + 1) (a + 1)

/-- The three backend variants of src/advanced_scraper.py. -/
inductive BackendChoice where
  | aiohttp
  | requestsHtml
  | playwright
deriving DecidableEq

/-- `AdvancedBookScraper._create_backend` (src/advanced_scraper.py lines
273-284): dispatches on the backend name string and raises ValueError for
an unsupported name.  It never consults the `*_AVAILABLE` flags, so it
constructs an adapter even when the chosen library is not installed. -/
def createBackend (name : List Char) : Except PyErr BackendChoice :=
  if name = "aiohttp".toList then .ok .aiohttp
  else if name = "requests-html".toList then .ok .requestsHtml
  else if name = "playwright".toList then .ok .playwright
  else .error .valueError

/-- ASCII whitespace stripped by Python `str.strip()` with no argument. -/
def isPySpace (c : Char) : Bool :=
  c == ' ' || (decide (9 ≤ c.toNat) && decide (c.toNat ≤ 13))

/-- Python `s.strip()` (ASCII whitespace model). -/
def pyStrip (s : List Char) : List Char :=
  ((s.dropWhile isPySpace).reverse.dropWhile isPySpace).reverse

/-- Python `s.lower()` (ASCII model). -/
def pyLower (s : List Char) : List Char := s.map Char.toLower

/-- The regex class `\w` (ASCII model): letters, digits, underscore. -/
def isWordChar (c : Char) : Bool := c.isAlphanum || c == '_'

/-- Python `url.rstrip("/")`: remove all trailing slashes. -/
def pyRstripSlash (s : List Char) : List Char :=
  (s.reverse.dropWhile (fun c => c == '/')).reverse

/-- Python `s.split("/")[-1]`: the suffix after the last slash (the whole
string when it has no slash). -/
def lastSegment (s : List Char) : List Char :=
  (s.reverse.takeWhile (fun c => !(c == '/'))).reverse

/-- Python `s.replace(".html", "")`: remove every occurrence of `.html`,
scanning left to right.  A trailing `.htm` is not an occurrence and stays. -/
def removeDotHtml : List Char → List Char
  | '.' :: 'h' :: 't' :: 'm' :: 'l' :: rest => removeDotHtml rest
  | c :: rest => c :: removeDotHtml rest
  | [] => []

/-- Python `re.sub(r"[^\w\-]+", "-", s)`: replace every maximal run of
characters that are neither word characters nor hyphens by one hyphen.
The flag records whether the previous character belonged to such a run. -/
def collapseNonWordAux : Bool → List Char → List Char
  | _, [] => []
  | prevBad, c :: rest =>
    if isWordChar c || c == '-' then c :: collapseNonWordAux false rest
    else if prevBad then collapseNonWordAux true rest
    else '-' :: collapseNonWordAux true rest

/-- Python `re.sub(r"-{2,}", "-", s)`: collapse every run of two or more
hyphens to a single hyphen.  The flag records whether the previous
character was a hyphen. -/
def collapseHyphensAux : Bool → List Char → List Char
  | _, [] => []
  | prevHyph, c :: rest =>
    if c == '-' then
      if prevHyph then collapseHyphensAux true rest
      else '-' :: collapseHyphensAux true rest
    else c :: collapseHyphensAux false rest

/-- Remove all trailing hyphens (the right half of Python `s.strip("-")`). -/
def stripTrailingHyphens : List Char → List Char
  | [] => []
  | c :: rest =>
    match stripTrailingHyphens rest with
    | [] => if c == '-' then [] else [c]
    | r => c :: r

/-- Python `s.strip("-")`: remove leading and trailing hyphens. -/
def stripHyphens (s : List Char) : List Char :=
  stripTrailingHyphens (s.dropWhile (fun c => c == '-'))

/-- Whether a string contains two adjacent hyphens. -/
def hasDoubleHyphen : List Char → Bool
  | [] => false
  | [_] => false
  | a :: b :: rest => (a == '-' && b == '-') || hasDoubleHyphen (b :: rest)

/-- Python `f"{index:02d}"`: decimal digits zero-padded to width at least 2. -/
def padIndex (n : Nat) : List Char :=
  let ds := Nat.toDigits 10 n
  List.replicate (2 - ds.length) '0' ++ ds

/-- The stem computed by `AdvancedBookScraper._generate_smart_filename`
(src/advanced_scraper.py lines 342-348): the URL's last path segment after
stripping trailing slashes with every `.html` occurrence removed; when that
is empty, the lowercased stripped title with runs of non-word non-hyphen
characters collapsed to single hyphens, defaulting to `page` when empty;
then (in either case) hyphen runs collapsed and edge hyphens stripped. -/
def smartStem (url title : List Char) : List Char :=
  let tail0 := removeDotHtml (lastSegment (pyRstripSlash url))
  let tail1 :=
    if tail0.isEmpty then
      let slug := collapseNonWordAux false (pyLower (pyStrip title))
      if slug.isEmpty then ['p', 'a', 'g', 'e'] else slug
    else tail0
  stripHyphens (collapseHyphensAux false tail1)

/-- `AdvancedBookScraper._generate_smart_filename` (src/advanced_scraper.py
lines 342-348): `f"{index:02d}_{tail}.html"`. -/
def generateSmartFilename (index : Nat) (url title : List Char) : List Char :=
  padIndex index ++ '_' :: (smartStem url title ++ ['.', 'h', 't', 'm', 'l'])

/-- The `ScrapeMetrics` dataclass (src/advanced_scraper.py lines 37-44 and
src/scraper.py lines 23-30). -/
structure Metrics where
  total_pages : Nat
  successful_pages : Nat
  failed_pages : Nat
  total_time : ℚ
  avg_time_per_page : ℚ
  total_size_mb : ℚ
deriving DecidableEq

/-- Metrics at the start of `scrape_multiple_pages`, after
`self.metrics.total_pages = len(pages)`. -/
def initMetrics (total : Nat) : Metrics :=
  ⟨total, 0, 0, 0, 0, 0⟩

/-- One page task as observed when it completes: its title and url from the
input list, the `Option` body returned by `scrape_single_page`, and the
wall-clock time the success branch would record. -/
structure PageRun where
  title : List Char
  url : List Char
  result : Option (List Char)
  elapsed : ℚ
deriving DecidableEq

/-- Python truthiness of the `content` value tested by `if content:`:
`None` and the empty string are falsy. -/
def pyTruthy : Option (List Char) → Bool
  | none => false
  | some s => !s.isEmpty

/-- Orchestrator state: the metrics object plus the filenames written so
far. -/
structure BatchState where
  metrics : Metrics
  files : List (List Char)
deriving DecidableEq

/-- Python `pages.index(pr)`: the position of the first occurrence of `pr`.
Python raises ValueError when `pr` is absent; every call site passes a pair
drawn from the list itself, so the absent case (modelled as the list
length) is never reached there. -/
def pyListIndex (pages0 : List (List Char × List Char))
    (pr : List Char × List Char) : Nat :=
  match pages0 with
  | [] => 0
  | q :: rest => if q = pr then 0 else pyListIndex rest pr + 1

/-- The sequence index used by `progress_wrapper` (src/advanced_scraper.py
line 421): `pages.index((title, url)) + 1`, i.e. one plus the position of
the first occurrence of the pair in the input list. -/
def assignedIndex (pages0 : List (List Char × List Char))
    (t u : List Char) : Nat :=
  pyListIndex pages0 (t, u) + 1

/-- The completion step of `progress_wrapper` (src/advanced_scraper.py
lines 412-436) for one page: on a truthy body, format it, write the file
named by `_generate_smart_filename`, and record success, size and time; on
a falsy body only increment the failed count.  `fmt` abstracts
`_format_html_content`. -/
def progressStep (pages0 : List (List Char × List Char))
    (fmt : List Char → List Char → List Char)
    (s : BatchState) (p : PageRun) : BatchState :=
  if pyTruthy p.result then
    let formatted := fmt p.title (p.result.getD [])
    let fname :=
      generateSmartFilename (assignedIndex pages0 p.title p.url) p.url p.title
    { metrics :=
        { s.metrics with
          successful_pages := s.metrics.successful_pages + 1
          total_size_mb :=
            s.metrics.total_size_mb + (formatted.length : ℚ) / (1024 * 1024)
          total_time := s.metrics.total_time + p.elapsed }
      files := s.files ++ [fname] }
  else
    { s with metrics :=
        { s.metrics with failed_pages := s.metrics.failed_pages + 1 } }

/-- The final-metrics step of `scrape_multiple_pages` (src/advanced_scraper.py
lines 442-443): `avg_time_per_page = total_time / successful_pages` when
`successful_pages > 0`, otherwise the field keeps its current value. -/
def finalizeAvg (s : BatchState) : BatchState :=
  if 0 < s.metrics.successful_pages then
    { s with metrics :=
        { s.metrics with avg_time_per_page :=
            s.metrics.total_time / (s.metrics.successful_pages : ℚ) } }
  else s

/-- `AdvancedBookScraper.scrape_multiple_pages` (src/advanced_scraper.py
lines 402-443): set `total_pages`, run every page task to completion, then
finalize the average.  The counter and sum updates of the concurrently
completing tasks commute, so their aggregate effect is modelled as a left
fold in list order. -/
def scrapeMultiplePages (fmt : List Char → List Char → List Char)
    (runs : List PageRun) : BatchState :=
  finalizeAvg
    (runs.foldl (progressStep (runs.map fun p => (p.title, p.url)) fmt)
      ⟨initMetrics runs.length, []⟩)

/-- Lifecycle phase of one page task with respect to the concurrency gate:
not yet holding a semaphore slot, inside the `async with semaphore` region,
or finished (slot released). -/
inductive TaskPhase where
  | pending
  | holding
  | done
deriving DecidableEq

/-- State of a multi-page scrape with `N` page tasks: each task's phase and
the internal counter of `asyncio.Semaphore`. -/
structure GateState (N : Nat) where
  tasks : Fin N → TaskPhase
  avail : Nat

/-- Number of tasks currently holding a gate slot. -/
def holders {N : Nat} (ts : Fin N → TaskPhase) : Nat :=
  (Finset.univ.filter fun i => ts i = TaskPhase.holding).card

/-- Initial state of `scrape_multiple_pages`: all tasks created up front
(src/advanced_scraper.py line 439), none yet holding a slot, and
`asyncio.Semaphore(max_concurrent)` full. -/
def initGate (N maxC : Nat) : GateState N :=
  ⟨fun _ => TaskPhase.pending, maxC⟩

/-- Interleaving semantics of `async with semaphore` (src/advanced_scraper.py
line 413, src/scraper.py line 271): a pending task may acquire a slot only
when the semaphore counter is positive, decrementing it; a holding task
releases its slot on any exit, incrementing the counter. -/
inductive GateStep {N : Nat} : GateState N → GateState N → Prop
  | acquire (s : GateState N) (i : Fin N)
      (hp : s.tasks i = TaskPhase.pending) (hav : 0 < s.avail) :
      GateStep s ⟨Function.update s.tasks i TaskPhase.holding, s.avail - 1⟩
  | release (s : GateState N) (i : Fin N)
      (hh : s.tasks i = TaskPhase.holding) :
      GateStep s ⟨Function.update s.tasks i TaskPhase.done, s.avail + 1⟩

/-- States reachable from a given state by gate steps. -/
inductive GateReach {N : Nat} (s0 : GateState N) : GateState N → Prop
  | refl : GateReach s0 s0
  | step {s t : GateState N} : GateReach s0 s → GateStep s t → GateReach s0 t

/-- An anchor element with an `href` attribute, as found by
`soup.find_all('a', href=True)` (src/scraper.py line 415): its href value
and its visible text (before `.strip()`). -/
structure Anchor where
  href : List Char
  text : List Char
deriving DecidableEq

/-- Python `href.startswith(('http://', 'https://'))`. -/
def startsWithHttp (s : List Char) : Bool :=
  ("http://".toList).isPrefixOf s || ("https://".toList).isPrefixOf s

/-- The `skip_patterns` blacklist of src/scraper.py line 440. -/
def skipMarkers : List (List Char) :=
  ["home", "index", "contact", "about", "privacy", "terms"].map String.toList

/-- The per-anchor filter of src/scraper.py lines 419-444: skip an empty or
bare-fragment href; resolve a non-absolute href against the base URL
(`urljoin`, abstracted as `resolve`); skip cross-domain links
(`urlparse(...).netloc`, abstracted as `netloc`); skip stripped text
shorter than 3 characters; skip text containing a blacklisted marker
case-insensitively; otherwise yield the `(text, resolved href)` pair. -/
def anchorLink (netloc resolve : List Char → List Char)
    (baseUrl : List Char) (a : Anchor) : Option (List Char × List Char) :=
  let text := pyStrip a.text
  if a.href.isEmpty || a.href == ['#'] then none
  else
    let href := if startsWithHttp a.href then a.href else resolve a.href
    if netloc href ≠ netloc baseUrl then none
    else if text.length < 3 then none
    else if skipMarkers.any (fun p => decide (List.IsInfix p (pyLower text))) then none
    else some (text, href)

/-- The duplicate-removal loop of src/scraper.py lines 446-452: keep a pair
when its url is not in the `seen` set, in first-seen order. -/
def dedupLinks : List (List Char × List Char) → List (List Char) →
    List (List Char × List Char)
  | [], _ => []
  | p :: rest, seen =>
    if p.2 ∈ seen then dedupLinks rest seen
    else p :: dedupLinks rest (p.2 :: seen)

/-- Link discovery of src/scraper.py lines 413-452: filter all anchors,
then deduplicate by resolved URL. -/
def discoverLinks (netloc resolve : List Char → List Char)
    (baseUrl : List Char) (anchors : List Anchor) :
    List (List Char × List Char) :=
  dedupLinks (anchors.filterMap (anchorLink netloc resolve baseUrl)) []

/-! ## Theorems -/

theorem backendLoop_zero (dur : Nat → ℚ)
    (outcome : Nat → Except PyErr (List Char)) (a : Nat) :
    backendLoop dur outcome 0 a = (none, []) := rfl

theorem backendLoop_step (dur : Nat → ℚ)
    (outcome : Nat → Except PyErr (List Char)) (r a : Nat) :
    backendLoop dur outcome (r + 1) a =
      match outcome a with
      | .ok s => (some s, [.att a])
      | .error _ =>
        if r = 0 then (none, [.att a])
        else
          ((backendLoop dur outcome r (a + 1)).1,
            .att a :: .backoff (dur a) :: (backendLoop dur outcome r (a + 1)).2) := rfl

theorem backendLoop_fail (dur : Nat → ℚ)
    (outcome : Nat → Except PyErr (List Char))
    (hfail : ∀ i, exceptFails (outcome i) = true) :
    ∀ r a, backendLoop dur outcome r a = (none, failSched dur r a) := by
  intro r
  induction r with
  | zero => intro a; rfl
  | succ r ih =>
    intro a
    have h0 := hfail a
    cases h : outcome a with
    | ok s => rw [h] at h0; simp [exceptFails] at h0
    | error e =>
      rw [backendLoop_step, h]
      cases r with
      | zero => simp [failSched]
      | succ r' => simp [failSched, ih (a + 1)]

theorem backendLoop_success (dur : Nat → ℚ) :
    ∀ (k r a : Nat) (outcome : Nat → Except PyErr (List Char)) (s : List Char),
      k < r → (∀ j, j < k → exceptFails (outcome (a + j)) = true) →
      outcome (a + k) = .ok s →
      backendLoop dur outcome r a = (some s, succSched dur k a) := by
  intro k
  induction k with
  | zero =>
    intro r a outcome s hk hfail hsucc
    cases r with
    | zero => omega
    | succ r' =>
      have ha : outcome a = .ok s := by simpa using hsucc
      rw [backendLoop_step, ha]
      simp [succSched]
  | succ k ih =>
    intro r a outcome s hk hfail hsucc
    cases r with
    | zero => omega
    | succ r' =>
      have h0 : exceptFails (outcome a) = true := by
        have := hfail 0 (Nat.succ_pos k)
        simpa using this
      cases h : outcome a with
      | ok t => rw [h] at h0; simp [exceptFails] at h0
      | error e =>
        have hr' : r' ≠ 0 := by omega
        have hrec : backendLoop dur outcome r' (a + 1) =
            (some s, succSched dur k (a + 1)) := by
          apply ih r' (a + 1) outcome s (by omega)
          · intro j hj
            have := hfail (j + 1) (by omega)
            simpa [Nat.add_assoc, Nat.add_comm 1 j] using this
          · have h1 : a + 1 + k = a + (k + 1) := by omega
            rw [h1]; exact hsucc
        rw [backendLoop_step, h]
        simp [hr', hrec, succSched]

theorem failSched_countP_att (dur : Nat → ℚ) :
    ∀ r a, (failSched dur r a).countP isAtt = r := by
  intro r
  induction r using Nat.strong_induction_on with
  | _ r ih =>
    intro a
    match r with
    | 0 => simp [failSched]
    | 1 => simp [failSched, List.countP_cons, isAtt]
    | r + 2 =>
      have := ih (r + 1) (by omega) (a + 1)
      simp [failSched, List.countP_cons, isAtt, isBackoff, this]

theorem failSched_countP_backoff (dur : Nat → ℚ) :
    ∀ r a, (failSched dur r a).countP isBackoff = r - 1 := by
  intro r
  induction r using Nat.strong_induction_on with
  | _ r ih =>
    intro a
    match r with
    | 0 => simp [failSched]
    | 1 => simp [failSched, List.countP_cons, isBackoff]
    | r + 2 =>
      have := ih (r + 1) (by omega) (a + 1)
      simp [failSched, List.countP_cons, isAtt, isBackoff, this]

theorem failSched_countP_rate (dur : Nat → ℚ) :
    ∀ r a, (failSched dur r a).countP isRate = 0 := by
  intro r
  induction r using Nat.strong_induction_on with
  | _ r ih =>
    intro a
    match r with
    | 0 => simp [failSched]
    | 1 => simp [failSched, List.countP_cons, isRate]
    | r + 2 =>
      have := ih (r + 1) (by omega) (a + 1)
      simp [failSched, List.countP_cons, isRate, this]

theorem bookLoop_step (enabled : Bool) (d b : ℚ)
    (outcome : Nat → Except PyErr (List Char)) (r a : Nat) :
    bookLoop enabled d b outcome (r + 1) a =
      match outcome a with
      | .ok s =>
        (some s, (if enabled then [FetchEvent.rate d] else []) ++ [.att a])
      | .error _ =>
        if r = 0 then
          (none, (if enabled then [FetchEvent.rate d] else []) ++ [.att a])
        else
          ((bookLoop enabled d b outcome r (a + 1)).1,
            (if enabled then [FetchEvent.rate d] else []) ++
              .att a :: .backoff (b * 2 ^ a) ::
                (bookLoop enabled d b outcome r (a + 1)).2) := rfl

theorem bookLoop_fail (d b : ℚ)
    (outcome : Nat → Except PyErr (List Char))
    (hfail : ∀ i, exceptFails (outcome i) = true) :
    ∀ r a, bookLoop true d b outcome r a = (none, bookFailSched d b r a) := by
  intro r
  induction r with
  | zero => intro a; rfl
  | succ r ih =>
    intro a
    have h0 := hfail a
    cases h : outcome a with
    | ok s => rw [h] at h0; simp [exceptFails] at h0
    | error e =>
      rw [bookLoop_step, h]
      cases r with
      | zero => simp [bookFailSched]
      | succ r' => simp [bookFailSched, ih (a + 1)]

theorem bookFailSched_countP_rate (d b : ℚ) :
    ∀ r a, (bookFailSched d b r a).countP isRate = r := by
  intro r
  induction r using Nat.strong_induction_on with
  | _ r ih =>
    intro a
    match r with
    | 0 => simp [bookFailSched]
    | 1 => simp [bookFailSched, List.countP_cons, isRate, isAtt]
    | r + 2 =>
      have := ih (r + 1) (by omega) (a + 1)
      simp [bookFailSched, List.countP_cons, isRate, isAtt, isBackoff, this]

theorem bookFailSched_countP_att (d b : ℚ) :
    ∀ r a, (bookFailSched d b r a).countP isAtt = r := by
  intro r
  induction r using Nat.strong_induction_on with
  | _ r ih =>
    intro a
    match r with
    | 0 => simp [bookFailSched]
    | 1 => simp [bookFailSched, List.countP_cons, isRate, isAtt]
    | r + 2 =>
      have := ih (r + 1) (by omega) (a + 1)
      simp [bookFailSched, List.countP_cons, isRate, isAtt, isBackoff, this]

/-- Claim C1 counterexample: with `max_attempts = 2` and
`backoff_factor = 1/2`, a permanently failing fetch through the
requests-html (JsRenderSession) backend suspends for 1 second and through
the playwright (FullBrowser) backend for 2 seconds, while the claim
demands a suspension of `backoff_factor * 2^0 = 1/2` seconds for every
backend variant. -/
theorem C1_counterexample :
    rhScrapePage true 2 (fun _ => .error .fetchError) =
      .ok (none, [.att 0, .backoff 1, .att 1]) ∧
    pwScrapePage true 2 (fun _ => .error .fetchError) =
      .ok (none, [.att 0, .backoff 2, .att 1]) ∧
    (1 : ℚ) ≠ (1 / 2) * 2 ^ (0 : Nat) ∧
    (2 : ℚ) ≠ (1 / 2) * 2 ^ (0 : Nat) := by
  refine ⟨rfl, rfl, by norm_num, by norm_num⟩

/-- Claim C1 (amended): for every retry configuration with
`max_attempts = n ≥ 1` and `backoff_factor = b ≥ 0`, a fetch of a URL
failing on every attempt performs exactly `n` attempts and exactly `n - 1`
backoff suspensions in that order with no delay after the final failed
attempt, under every backend variant; the i-th suspension lasts
`b * 2^i` seconds for the aiohttp (SimpleHttp) backend, but a fixed
1 second for requests-html (JsRenderSession) and a fixed 2 seconds for
playwright (FullBrowser), which ignore `backoff_factor`.  Any successful
attempt short-circuits the remaining attempts on every backend. -/
theorem C1_retry_schedule (n : Nat) (hn : 1 ≤ n) (b : ℚ) (hb : 0 ≤ b)
    (outcome : Nat → Except PyErr (List Char))
    (hfail : ∀ i, exceptFails (outcome i) = true) :
    aioScrapePage true b n outcome =
      .ok (none, failSched (fun i => b * 2 ^ i) n 0) ∧
    rhScrapePage true n outcome = .ok (none, failSched (fun _ => 1) n 0) ∧
    pwScrapePage true n outcome = .ok (none, failSched (fun _ => 2) n 0) ∧
    (failSched (fun i => b * 2 ^ i) n 0).countP isAtt = n ∧
    (failSched (fun i => b * 2 ^ i) n 0).countP isBackoff = n - 1 ∧
    (∀ (k : Nat) (s : List Char) (outc : Nat → Except PyErr (List Char)),
      k < n → (∀ j, j < k → exceptFails (outc j) = true) → outc k = .ok s →
      aioScrapePage true b n outc =
        .ok (some s, succSched (fun i => b * 2 ^ i) k 0) ∧
      rhScrapePage true n outc = .ok (some s, succSched (fun _ => 1) k 0) ∧
      pwScrapePage true n outc = .ok (some s, succSched (fun _ => 2) k 0)) := by
  refine ⟨?_, ?_, ?_, failSched_countP_att _ n 0,
    failSched_countP_backoff _ n 0, ?_⟩
  · simp [aioScrapePage, backendLoop_fail _ _ hfail]
  · simp [rhScrapePage, backendLoop_fail _ _ hfail]
  · simp [pwScrapePage, backendLoop_fail _ _ hfail]
  · intro k s outc hk hf hsucc
    have hf' : ∀ j, j < k → exceptFails (outc (0 + j)) = true := by
      simpa using hf
    have hs' : outc (0 + k) = .ok s := by simpa using hsucc
    exact ⟨by simp [aioScrapePage, backendLoop_success _ k n 0 outc s hk hf' hs'],
      by simp [rhScrapePage, backendLoop_success _ k n 0 outc s hk hf' hs'],
      by simp [pwScrapePage, backendLoop_success _ k n 0 outc s hk hf' hs']⟩

/-- Witness for Claim C1's amended theorem at `n = 3`, `b = 1/2`. -/
theorem C1_retry_schedule_witness :
    aioScrapePage true (1 / 2) 3 (fun _ => .error .fetchError) =
      .ok (none, failSched (fun i => (1 / 2 : ℚ) * 2 ^ i) 3 0) :=
  (C1_retry_schedule 3 (by norm_num) (1 / 2) (by norm_num)
    (fun _ => .error .fetchError) (fun _ => rfl)).1

/-- Claim C4 counterexample: with rate limiting enabled (delay 1/10),
`max_attempts = 2` and `backoff_factor = 1/2`, a permanently failing page
fetched through `AdvancedBookScraper.scrape_single_page` suspends for the
rate-limit delay exactly once, before the first attempt only, although the
trace contains two fetch attempts — the claim demands a rate-limit
suspension before every attempt. -/
theorem C4_counterexample :
    advScrapeSinglePage true (1 / 10)
        (aioScrapePage true (1 / 2) 2 (fun _ => .error .fetchError)) =
      .ok (none, [.rate (1 / 10), .att 0,
        .backoff ((1 / 2) * 2 ^ (0 : Nat)), .att 1]) ∧
    ([FetchEvent.rate (1 / 10), .att 0,
        .backoff ((1 / 2) * 2 ^ (0 : Nat)), .att 1].countP isRate = 1) ∧
    ([FetchEvent.rate (1 / 10), .att 0,
        .backoff ((1 / 2) * 2 ^ (0 : Nat)), .att 1].countP isAtt = 2) ∧
    (1 : Nat) ≠ 2 := by
  refine ⟨?_, ?_, ?_, by omega⟩
  · rw [show aioScrapePage true ((1 : ℚ) / 2) 2 (fun _ => .error .fetchError) =
        .ok (backendLoop (fun i => (1 / 2 : ℚ) * 2 ^ i)
          (fun _ => .error .fetchError) 2 0) from rfl]
    rfl
  · simp [List.countP_cons, isRate]
  · simp [List.countP_cons, isRate, isAtt]

/-- Claim C4 (amended): with rate limiting enabled, `BookScraper`
(src/scraper.py) suspends for the fixed delay before every fetch attempt
of a page, including each retry attempt; `AdvancedBookScraper`
(src/advanced_scraper.py) instead suspends for the delay exactly once per
page, before the first attempt only, and its backend retry attempts run
with no further rate-limit suspension. -/
theorem C4_rate_limit_placement (n : Nat) (hn : 1 ≤ n) (d b : ℚ)
    (outcome : Nat → Except PyErr (List Char))
    (hfail : ∀ i, exceptFails (outcome i) = true) :
    bookScrapeSinglePage true d b n outcome = (none, bookFailSched d b n 0) ∧
    (bookFailSched d b n 0).countP isRate = n ∧
    (bookFailSched d b n 0).countP isAtt = n ∧
    advScrapeSinglePage true d (aioScrapePage true b n outcome) =
      .ok (none, FetchEvent.rate d :: failSched (fun i => b * 2 ^ i) n 0) ∧
    (FetchEvent.rate d :: failSched (fun i => b * 2 ^ i) n 0).countP isRate
      = 1 ∧
    (FetchEvent.rate d :: failSched (fun i => b * 2 ^ i) n 0).countP isAtt
      = n := by
  refine ⟨bookLoop_fail d b outcome hfail n 0,
    bookFailSched_countP_rate d b n 0, bookFailSched_countP_att d b n 0,
    ?_, ?_, ?_⟩
  · simp [advScrapeSinglePage, aioScrapePage, backendLoop_fail _ _ hfail]
  · simp [List.countP_cons, isRate, failSched_countP_rate]
  · simp [List.countP_cons, isRate, isAtt, failSched_countP_att]

/-- Witness for Claim C4's amended theorem at `n = 2`, `d = 1/10`,
`b = 1/2`. -/
theorem C4_rate_limit_placement_witness :
    bookScrapeSinglePage true (1 / 10) (1 / 2) 2 (fun _ => .error .fetchError)
      = (none, bookFailSched (1 / 10) (1 / 2) 2 0) :=
  (C4_rate_limit_placement 2 (by norm_num) (1 / 10) (1 / 2)
    (fun _ => .error .fetchError) (fun _ => rfl)).1

theorem holders_update_holding {N : Nat} (ts : Fin N → TaskPhase) (i : Fin N)
    (hi : ts i ≠ TaskPhase.holding) :
    holders (Function.update ts i TaskPhase.holding) = holders ts + 1 := by
  unfold holders
  have hset : (Finset.univ.filter fun j =>
      Function.update ts i TaskPhase.holding j = TaskPhase.holding)
      = insert i (Finset.univ.filter fun j => ts j = TaskPhase.holding) := by
    ext j
    by_cases hj : j = i
    · subst hj; simp [Function.update_same]
    · simp [Function.update_noteq hj, hj]
  rw [hset, Finset.card_insert_of_not_mem]
  simp [hi]

theorem holders_update_done {N : Nat} (ts : Fin N → TaskPhase) (i : Fin N)
    (hi : ts i = TaskPhase.holding) :
    holders (Function.update ts i TaskPhase.done) + 1 = holders ts := by
  unfold holders
  have hmem : i ∈ Finset.univ.filter fun j => ts j = TaskPhase.holding := by
    simp [hi]
  have hset : (Finset.univ.filter fun j =>
      Function.update ts i TaskPhase.done j = TaskPhase.holding)
      = (Finset.univ.filter fun j => ts j = TaskPhase.holding).erase i := by
    ext j
    by_cases hj : j = i
    · subst hj; simp [Function.update_same]
    · simp [Function.update_noteq hj, hj]
  rw [hset, Finset.card_erase_of_mem hmem]
  have hpos := Finset.card_pos.mpr ⟨i, hmem⟩
  omega

/-- Semaphore safety invariant: in every reachable state the internal
counter plus the number of slot holders equals the capacity. -/
theorem gate_invariant {N maxC : Nat} :
    ∀ s : GateState N, GateReach (initGate N maxC) s →
      s.avail + holders s.tasks = maxC := by
  intro s h
  induction h with
  | refl => simp [initGate, holders]
  | @step t u hr hst ih =>
    cases hst with
    | acquire i hp hav =>
      have hne : t.tasks i ≠ TaskPhase.holding := by rw [hp]; simp
      have hup := holders_update_holding t.tasks i hne
      show t.avail - 1 + holders (Function.update t.tasks i TaskPhase.holding)
        = maxC
      rw [hup]
      omega
    | release i hh =>
      have hup := holders_update_done t.tasks i hh
      show t.avail + 1 + holders (Function.update t.tasks i TaskPhase.done)
        = maxC
      omega

/-- Claim C2: for every task-list size `N` and every concurrency setting
`max_concurrent = maxC ≥ 1`, in every state reachable under the semaphore
semantics of the multi-page scrape, at most `maxC` tasks simultaneously
hold a gate slot (i.e. are inside the rate-delay/fetch/extract/write
region guarded by `async with semaphore`). -/
theorem C2_gate_bound {N maxC : Nat} (hm : 1 ≤ maxC) (s : GateState N)
    (hreach : GateReach (initGate N maxC) s) :
    holders s.tasks ≤ maxC := by
  have hinv := gate_invariant s hreach
  omega

/-- Witness for Claim C2's theorem: two tasks, capacity 1, after one task
acquired the only slot. -/
theorem C2_gate_bound_witness :
    holders (GateState.mk
      (Function.update (initGate 2 1).tasks (0 : Fin 2) TaskPhase.holding)
      0).tasks ≤ 1 :=
  C2_gate_bound (by norm_num) _
    (GateReach.step GateReach.refl
      (GateStep.acquire (initGate 2 1) (0 : Fin 2) rfl (by decide)))

/-- Claim C6 counterexample: with the aiohttp library unavailable
(`AIOHTTP_AVAILABLE = False`), `_create_backend` for the name `aiohttp`
still returns an adapter without any error — `_create_backend` never
consults availability — and the ImportError is first raised mid-run, when
`scrape_page` is called; likewise for the other two backends. -/
theorem C6_counterexample :
    createBackend ("aiohttp".toList) = .ok BackendChoice.aiohttp ∧
    aioScrapePage false (1 / 2) 3 (fun _ => .error .fetchError) =
      .error .importError ∧
    rhScrapePage false 3 (fun _ => .error .fetchError) = .error .importError ∧
    pwScrapePage false 3 (fun _ => .error .fetchError) =
      .error .importError := by
  exact ⟨rfl, rfl, rfl, rfl⟩

/-- Claim C6 (amended): an unsupported backend *name* is rejected with
ValueError at adapter construction time, but a supported backend whose
library is unavailable constructs successfully, and the ImportError is
first surfaced mid-run when a fetch (`scrape_page`) is attempted. -/
theorem C6_backend_availability (name : List Char) (avail : Bool) (b : ℚ)
    (n : Nat) (outcome : Nat → Except PyErr (List Char))
    (hname : name = "aiohttp".toList ∨ name = "requests-html".toList ∨
      name = "playwright".toList) (hav : avail = false) :
    (∃ k, createBackend name = .ok k) ∧
    aioScrapePage avail b n outcome = .error .importError ∧
    rhScrapePage avail n outcome = .error .importError ∧
    pwScrapePage avail n outcome = .error .importError ∧
    (∀ other : List Char, other ≠ "aiohttp".toList →
      other ≠ "requests-html".toList → other ≠ "playwright".toList →
      createBackend other = .error .valueError) := by
  subst hav
  refine ⟨?_, rfl, rfl, rfl, ?_⟩
  · rcases hname with h | h | h <;> subst h
    · exact ⟨.aiohttp, rfl⟩
    · refine ⟨.requestsHtml, ?_⟩
      unfold createBackend
      rw [if_neg (by decide), if_pos rfl]
    · refine ⟨.playwright, ?_⟩
      unfold createBackend
      rw [if_neg (by decide), if_neg (by decide), if_pos rfl]
  · intro other h1 h2 h3
    unfold createBackend
    rw [if_neg h1, if_neg h2, if_neg h3]

/-- Witness for Claim C6's amended theorem for the aiohttp backend. -/
theorem C6_backend_availability_witness :
    rhScrapePage false 3 (fun _ => .error .fetchError) =
      .error .importError :=
  (C6_backend_availability ("requests-html".toList) false (1 / 2) 3
    (fun _ => .error .fetchError) (Or.inr (Or.inl rfl)) rfl).2.2.1

theorem countP_bool_split {α : Type} (p : α → Bool) :
    ∀ l : List α, l.countP p + l.countP (fun a => !p a) = l.length := by
  intro l
  induction l with
  | nil => rfl
  | cons x xs ih =>
    cases hx : p x <;> simp [List.countP_cons, hx] <;> omega

theorem progressStep_total (pages0 : List (List Char × List Char))
    (fmt : List Char → List Char → List Char) (s0 : BatchState)
    (p : PageRun) :
    (progressStep pages0 fmt s0 p).metrics.total_pages
      = s0.metrics.total_pages := by
  unfold progressStep
  split <;> rfl

theorem progressStep_avg (pages0 : List (List Char × List Char))
    (fmt : List Char → List Char → List Char) (s0 : BatchState)
    (p : PageRun) :
    (progressStep pages0 fmt s0 p).metrics.avg_time_per_page
      = s0.metrics.avg_time_per_page := by
  unfold progressStep
  split <;> rfl

theorem progressStep_succ (pages0 : List (List Char × List Char))
    (fmt : List Char → List Char → List Char) (s0 : BatchState)
    (p : PageRun) :
    (progressStep pages0 fmt s0 p).metrics.successful_pages
      = s0.metrics.successful_pages
          + (if pyTruthy p.result then 1 else 0) := by
  unfold progressStep
  split <;> simp_all

theorem progressStep_failed (pages0 : List (List Char × List Char))
    (fmt : List Char → List Char → List Char) (s0 : BatchState)
    (p : PageRun) :
    (progressStep pages0 fmt s0 p).metrics.failed_pages
      = s0.metrics.failed_pages
          + (if pyTruthy p.result then 0 else 1) := by
  unfold progressStep
  split <;> simp_all

theorem progressStep_files_len (pages0 : List (List Char × List Char))
    (fmt : List Char → List Char → List Char) (s0 : BatchState)
    (p : PageRun) :
    (progressStep pages0 fmt s0 p).files.length
      = s0.files.length + (if pyTruthy p.result then 1 else 0) := by
  unfold progressStep
  split <;> simp_all

theorem foldl_progressStep_spec (pages0 : List (List Char × List Char))
    (fmt : List Char → List Char → List Char) :
    ∀ (runs : List PageRun) (s0 : BatchState),
      (runs.foldl (progressStep pages0 fmt) s0).metrics.total_pages
        = s0.metrics.total_pages ∧
      (runs.foldl (progressStep pages0 fmt) s0).metrics.avg_time_per_page
        = s0.metrics.avg_time_per_page ∧
      (runs.foldl (progressStep pages0 fmt) s0).metrics.successful_pages
        = s0.metrics.successful_pages
            + runs.countP (fun p => pyTruthy p.result) ∧
      (runs.foldl (progressStep pages0 fmt) s0).metrics.failed_pages
        = s0.metrics.failed_pages
            + runs.countP (fun p => !pyTruthy p.result) ∧
      (runs.foldl (progressStep pages0 fmt) s0).files.length
        = s0.files.length + runs.countP (fun p => pyTruthy p.result) := by
  intro runs
  induction runs with
  | nil => intro s0; simp
  | cons p rest ih =>
    intro s0
    rw [List.foldl_cons]
    obtain ⟨h1, h2, h3, h4, h5⟩ := ih (progressStep pages0 fmt s0 p)
    refine ⟨?_, ?_, ?_, ?_, ?_⟩
    · rw [h1, progressStep_total]
    · rw [h2, progressStep_avg]
    · rw [h3, progressStep_succ, List.countP_cons]
      cases hp : pyTruthy p.result <;> simp [hp] <;> omega
    · rw [h4, progressStep_failed, List.countP_cons]
      cases hp : pyTruthy p.result <;> simp [hp] <;> omega
    · rw [h5, progressStep_files_len, List.countP_cons]
      cases hp : pyTruthy p.result <;> simp [hp] <;> omega

theorem finalizeAvg_fields (s : BatchState) :
    (finalizeAvg s).metrics.total_pages = s.metrics.total_pages ∧
    (finalizeAvg s).metrics.successful_pages = s.metrics.successful_pages ∧
    (finalizeAvg s).metrics.failed_pages = s.metrics.failed_pages ∧
    (finalizeAvg s).metrics.total_time = s.metrics.total_time ∧
    (finalizeAvg s).files = s.files := by
  unfold finalizeAvg
  split <;> simp

theorem finalizeAvg_avg (s : BatchState)
    (h0 : s.metrics.avg_time_per_page = 0) :
    (finalizeAvg s).metrics.avg_time_per_page =
      (if 0 < s.metrics.successful_pages then
        s.metrics.total_time / (s.metrics.successful_pages : ℚ) else 0) := by
  unfold finalizeAvg
  split <;> simp_all

/-- Aggregate behaviour of `scrape_multiple_pages` on any input: counts,
file count and average, expressed over the input run list. -/
theorem scrapeMultiplePages_spec (fmt : List Char → List Char → List Char)
    (runs : List PageRun) :
    (scrapeMultiplePages fmt runs).metrics.total_pages = runs.length ∧
    (scrapeMultiplePages fmt runs).metrics.successful_pages
      = runs.countP (fun p => pyTruthy p.result) ∧
    (scrapeMultiplePages fmt runs).metrics.failed_pages
      = runs.countP (fun p => !pyTruthy p.result) ∧
    (scrapeMultiplePages fmt runs).files.length
      = runs.countP (fun p => pyTruthy p.result) ∧
    (scrapeMultiplePages fmt runs).metrics.avg_time_per_page
      = (if 0 < (scrapeMultiplePages fmt runs).metrics.successful_pages then
          (scrapeMultiplePages fmt runs).metrics.total_time
            / ((scrapeMultiplePages fmt runs).metrics.successful_pages : ℚ)
        else 0) := by
  have hs : scrapeMultiplePages fmt runs
      = finalizeAvg (runs.foldl
          (progressStep (runs.map fun p => (p.title, p.url)) fmt)
          ⟨initMetrics runs.length, []⟩) := rfl
  obtain ⟨h1, h2, h3, h4, h5⟩ := foldl_progressStep_spec
    (runs.map fun p => (p.title, p.url)) fmt runs
    ⟨initMetrics runs.length, []⟩
  obtain ⟨g1, g2, g3, g4, g5⟩ := finalizeAvg_fields
    (runs.foldl (progressStep (runs.map fun p => (p.title, p.url)) fmt)
      ⟨initMetrics runs.length, []⟩)
  have h2' : (runs.foldl
      (progressStep (runs.map fun p => (p.title, p.url)) fmt)
      ⟨initMetrics runs.length, []⟩).metrics.avg_time_per_page = 0 := by
    rw [h2]; rfl
  have gavg := finalizeAvg_avg _ h2'
  refine ⟨?_, ?_, ?_, ?_, ?_⟩
  · rw [hs, g1, h1]; simp [initMetrics]
  · rw [hs, g2, h3]; simp [initMetrics]
  · rw [hs, g3, h4]; simp [initMetrics]
  · rw [hs, g5, h5]; simp [initMetrics]
  · rw [hs, gavg, g2, g4]

/-- Claim C3: after a multi-page scrape on any input list,
`successful_pages + failed_pages = total_pages`, and `avg_time_per_page`
equals `total_time / successful_pages` when `successful_pages > 0` and 0
otherwise. -/
theorem C3_metrics_invariant (fmt : List Char → List Char → List Char)
    (runs : List PageRun) :
    (scrapeMultiplePages fmt runs).metrics.successful_pages
        + (scrapeMultiplePages fmt runs).metrics.failed_pages
      = (scrapeMultiplePages fmt runs).metrics.total_pages ∧
    (scrapeMultiplePages fmt runs).metrics.avg_time_per_page
      = (if 0 < (scrapeMultiplePages fmt runs).metrics.successful_pages then
          (scrapeMultiplePages fmt runs).metrics.total_time
            / ((scrapeMultiplePages fmt runs).metrics.successful_pages : ℚ)
        else 0) := by
  obtain ⟨h1, h2, h3, _, h5⟩ := scrapeMultiplePages_spec fmt runs
  refine ⟨?_, h5⟩
  rw [h1, h2, h3]
  exact countP_bool_split _ runs

/-- Claim C10: success of a page is decided by Python truthiness of the
returned body, not by it being non-None: a fetch that completes without
error but returns an empty-string body is classified as failed — the
failed count is incremented, the successful count is not, and no output
file is written. -/
theorem C10_empty_body_failure (fmt : List Char → List Char → List Char)
    (runs : List PageRun) (t u : List Char) (d : ℚ) :
    pyTruthy (some []) = false ∧
    (scrapeMultiplePages fmt [⟨t, u, some [], d⟩]).metrics.failed_pages = 1 ∧
    (scrapeMultiplePages fmt
      [⟨t, u, some [], d⟩]).metrics.successful_pages = 0 ∧
    (scrapeMultiplePages fmt [⟨t, u, some [], d⟩]).files = [] ∧
    (scrapeMultiplePages fmt runs).metrics.failed_pages
      = runs.countP (fun p => !pyTruthy p.result) ∧
    (scrapeMultiplePages fmt runs).metrics.successful_pages
      = runs.countP (fun p => pyTruthy p.result) ∧
    (scrapeMultiplePages fmt runs).files.length
      = runs.countP (fun p => pyTruthy p.result) := by
  obtain ⟨_, h2, h3, h4, _⟩ := scrapeMultiplePages_spec fmt runs
  refine ⟨rfl, ?_, ?_, ?_, h3, h2, h4⟩ <;>
    simp [scrapeMultiplePages, finalizeAvg, progressStep, pyTruthy,
      initMetrics]

/-- Claim C5: an attempt failure (non-2xx response via `raise_for_status`,
transport error, timeout) never propagates an exception to the caller:
with the backend available, `scrape_page` always returns a value, and
after exhausting all attempts it returns None; a page whose fetch returned
None increments only the failed count and writes no file, and the
remaining pages of the batch still run to completion (every page is
accounted for in the final metrics). -/
theorem C5_failure_isolation (b : ℚ) (n : Nat)
    (outcome : Nat → Except PyErr (List Char))
    (fmt : List Char → List Char → List Char) (runs : List PageRun)
    (t u : List Char) (d : ℚ)
    (hfail : ∀ i, exceptFails (outcome i) = true) :
    (∀ outc : Nat → Except PyErr (List Char), ∃ v,
      aioScrapePage true b n outc = .ok v) ∧
    aioScrapePage true b n outcome =
      .ok (none, failSched (fun i => b * 2 ^ i) n 0) ∧
    pyTruthy none = false ∧
    (scrapeMultiplePages fmt (⟨t, u, none, d⟩ :: runs)).metrics.failed_pages
      = 1 + runs.countP (fun p => !pyTruthy p.result) ∧
    (scrapeMultiplePages fmt (⟨t, u, none, d⟩ :: runs)).files.length
      = runs.countP (fun p => pyTruthy p.result) ∧
    (scrapeMultiplePages fmt
          (⟨t, u, none, d⟩ :: runs)).metrics.successful_pages
        + (scrapeMultiplePages fmt
            (⟨t, u, none, d⟩ :: runs)).metrics.failed_pages
      = (⟨t, u, none, d⟩ :: runs : List PageRun).length := by
  obtain ⟨h1, h2, h3, h4, _⟩ :=
    scrapeMultiplePages_spec fmt (⟨t, u, none, d⟩ :: runs)
  refine ⟨fun outc => ⟨_, rfl⟩, ?_, rfl, ?_, ?_, ?_⟩
  · simp [aioScrapePage, backendLoop_fail _ _ hfail]
  · rw [h3]; simp [List.countP_cons, pyTruthy]; omega
  · rw [h4]; simp [List.countP_cons, pyTruthy]
  · rw [h2, h3]
    exact countP_bool_split _ _

/-- Witness for Claim C5's theorem at `n = 2`, `b = 1/3`, an empty batch
remainder. -/
theorem C5_failure_isolation_witness :
    aioScrapePage true (1 / 3) 2 (fun _ => .error .fetchError) =
      .ok (none, failSched (fun i => (1 / 3 : ℚ) * 2 ^ i) 2 0) :=
  (C5_failure_isolation (1 / 3) 2 (fun _ => .error .fetchError)
    (fun _ body => body) [] [] [] 0 (fun _ => rfl)).2.1

/-- Claim C8 counterexample: on the duplicated input list
`[(t, u), (t, u)]`, `pages.index((title, url)) + 1` (src/advanced_scraper.py
line 421) assigns BOTH positions the sequence index of the first
occurrence: both output files carry the `01` prefix, although the claim
requires the pair at position 2 to receive index 2, and the two filenames
the claim predicts are distinct. -/
theorem C8_counterexample :
    (scrapeMultiplePages (fun _ body => body)
      [⟨['t'], ['u'], some ['c'], 0⟩, ⟨['t'], ['u'], some ['c'], 0⟩]).files
      = [generateSmartFilename 1 ['u'] ['t'],
         generateSmartFilename 1 ['u'] ['t']] ∧
    assignedIndex [(['t'], ['u']), (['t'], ['u'])] ['t'] ['u'] = 1 ∧
    generateSmartFilename 1 ['u'] ['t'] ≠ generateSmartFilename 2 ['u'] ['t']
    := by
  refine ⟨?_, by decide, by decide⟩
  simp [scrapeMultiplePages, finalizeAvg, progressStep, pyTruthy,
    assignedIndex, pyListIndex, initMetrics]

/-- Claim C8 (amended): the sequence index used to prefix a pair's output
filename is one plus the position of the FIRST occurrence of that
`(title, url)` pair in the input list; when the list contains no duplicate
pair this equals the pair's own 1-based position `i` for every position,
but duplicate pairs all receive the first occurrence's index prefix. -/
theorem pyListIndex_get_of_nodup :
    ∀ (l : List (List Char × List Char)), l.Nodup →
      ∀ (i : Nat) (h : i < l.length), pyListIndex l (l.get ⟨i, h⟩) = i := by
  intro l
  induction l with
  | nil => intro _ i h; simp at h
  | cons x xs ih =>
    intro hnd i h
    obtain ⟨hx, hnd'⟩ := List.nodup_cons.mp hnd
    cases i with
    | zero =>
      show pyListIndex (x :: xs) x = 0
      simp [pyListIndex]
    | succ j =>
      have hj : j < xs.length := by simpa using h
      show pyListIndex (x :: xs) (xs.get ⟨j, hj⟩) = j + 1
      have hne : x ≠ xs.get ⟨j, hj⟩ := by
        intro he
        exact hx (he ▸ xs.get_mem j hj)
      simp only [pyListIndex, if_neg hne, ih hnd' j hj]

theorem C8_sequence_index (pages0 : List (List Char × List Char))
    (hnd : pages0.Nodup) (i : Nat) (h : i < pages0.length) :
    assignedIndex pages0 (pages0.get ⟨i, h⟩).1 (pages0.get ⟨i, h⟩).2
      = i + 1 ∧
    (∀ t hu : List Char,
      assignedIndex pages0 t hu = pyListIndex pages0 (t, hu) + 1) := by
  refine ⟨?_, fun t hu => rfl⟩
  unfold assignedIndex
  rw [show ((pages0.get ⟨i, h⟩).1, (pages0.get ⟨i, h⟩).2)
      = pages0.get ⟨i, h⟩ from rfl]
  rw [pyListIndex_get_of_nodup pages0 hnd i h]

/-- Witness for Claim C8's amended theorem on a duplicate-free list. -/
theorem C8_sequence_index_witness :
    assignedIndex [(['a'], ['b']), (['c'], ['d'])]
      (([(['a'], ['b']), (['c'], ['d'])].get ⟨1, by decide⟩).1)
      (([(['a'], ['b']), (['c'], ['d'])].get ⟨1, by decide⟩).2) = 2 :=
  (C8_sequence_index [(['a'], ['b']), (['c'], ['d'])] (by decide) 1
    (by decide)).1

theorem collapseHyphensAux_head :
    ∀ s : List Char, (collapseHyphensAux true s).head? ≠ some '-' := by
  intro s
  induction s with
  | nil => simp [collapseHyphensAux]
  | cons c rest ih =>
    cases hc : c == '-'
    · have hcne : c ≠ '-' := by simpa using hc
      simp [collapseHyphensAux, hc, hcne]
    · simp [collapseHyphensAux, hc, ih]

theorem hdh_cons_of (c : Char) (t : List Char)
    (h1 : hasDoubleHyphen t = false)
    (h2 : c ≠ '-' ∨ t.head? ≠ some '-') :
    hasDoubleHyphen (c :: t) = false := by
  cases t with
  | nil => rfl
  | cons b t' =>
    have hb : (c == '-' && b == '-') = false := by
      rcases h2 with h | h
      · simp [h]
      · have hbne : b ≠ '-' := by simpa using h
        simp [hbne]
    simp only [hasDoubleHyphen, hb, Bool.false_or]
    exact h1

theorem hdh_collapse :
    ∀ (s : List Char) (prev : Bool),
      hasDoubleHyphen (collapseHyphensAux prev s) = false := by
  intro s
  induction s with
  | nil => intro prev; rfl
  | cons c rest ih =>
    intro prev
    cases hc : c == '-'
    · have hcne : c ≠ '-' := by simpa using hc
      simp only [collapseHyphensAux, hc, Bool.false_eq_true, if_false]
      exact hdh_cons_of c _ (ih false) (Or.inl hcne)
    · have hceq : c = '-' := by simpa using hc
      subst hceq
      cases prev
      · simp only [collapseHyphensAux, hc, if_true, Bool.false_eq_true,
          if_false]
        exact hdh_cons_of _ _ (ih true) (Or.inr (collapseHyphensAux_head rest))
      · simp only [collapseHyphensAux, hc, if_true]
        exact ih true

theorem hdh_dropWhile (p : Char → Bool) :
    ∀ s : List Char, hasDoubleHyphen s = false →
      hasDoubleHyphen (s.dropWhile p) = false := by
  intro s
  induction s with
  | nil => intro h; simpa using h
  | cons c rest ih =>
    intro h
    have hrest : hasDoubleHyphen rest = false := by
      cases rest with
      | nil => rfl
      | cons b t =>
        simp only [hasDoubleHyphen, Bool.or_eq_false_iff] at h
        exact h.2
    rw [List.dropWhile_cons]
    split
    · exact ih hrest
    · exact h

theorem hdh_prefix :
    ∀ (t s : List Char), t <+: s → hasDoubleHyphen s = false →
      hasDoubleHyphen t = false := by
  intro t
  induction t with
  | nil => intro s _ _; rfl
  | cons d t' ih =>
    intro s hpre hs
    obtain ⟨u, hu⟩ := hpre
    subst hu
    cases t' with
    | nil => rfl
    | cons e t'' =>
      simp only [List.cons_append, hasDoubleHyphen,
        Bool.or_eq_false_iff] at hs ⊢
      refine ⟨hs.1, ?_⟩
      have hpre' : e :: t'' <+: e :: (t'' ++ u) := ⟨u, by simp⟩
      exact ih (e :: (t'' ++ u)) hpre' hs.2

theorem stripTrailing_pre :
    ∀ s : List Char, stripTrailingHyphens s <+: s := by
  intro s
  induction s with
  | nil => exact List.nil_prefix
  | cons c rest ih =>
    show (match stripTrailingHyphens rest with
      | [] => if c == '-' then [] else [c]
      | r => c :: r) <+: c :: rest
    cases hr : stripTrailingHyphens rest with
    | nil =>
      cases hc : c == '-'
      · simp only [hc, Bool.false_eq_true, if_false]
        exact ⟨rest, rfl⟩
      · simp only [hc, if_true]
        exact List.nil_prefix
    | cons b t =>
      rw [hr] at ih
      obtain ⟨u, hu⟩ := ih
      exact ⟨u, by rw [List.cons_append, hu]⟩

theorem head_dropWhileHyphen :
    ∀ s : List Char,
      (s.dropWhile fun c => c == '-').head? ≠ some '-' := by
  intro s
  induction s with
  | nil => simp
  | cons c rest ih =>
    rw [List.dropWhile_cons]
    split
    · exact ih
    · rename_i hc
      have hcne : c ≠ '-' := by simpa using hc
      simp [hcne]

theorem stripTrailing_step (c : Char) (rest : List Char) :
    stripTrailingHyphens (c :: rest)
      = match stripTrailingHyphens rest with
        | [] => if c == '-' then [] else [c]
        | r => c :: r := rfl

theorem stripTrailing_head :
    ∀ s : List Char, (stripTrailingHyphens s).head? = none ∨
      (stripTrailingHyphens s).head? = s.head? := by
  intro s
  induction s with
  | nil => exact Or.inl rfl
  | cons c rest ih =>
    rw [stripTrailing_step]
    cases hr : stripTrailingHyphens rest with
    | nil =>
      cases hc : c == '-'
      · simp [hc]
      · simp [hc]
    | cons b t => simp

theorem stripTrailing_getLast :
    ∀ s : List Char,
      (stripTrailingHyphens s).getLast? ≠ some '-' := by
  intro s
  induction s with
  | nil => simp [stripTrailingHyphens]
  | cons c rest ih =>
    rw [stripTrailing_step]
    cases hr : stripTrailingHyphens rest with
    | nil =>
      cases hc : c == '-'
      · have hcne : c ≠ '-' := by simpa using hc
        simp [hc, hcne]
      · simp [hc]
    | cons b t =>
      rw [hr] at ih
      simpa [List.getLast?_cons_cons] using ih

theorem hdh_stripHyphens_collapse (s : List Char) :
    hasDoubleHyphen (stripHyphens (collapseHyphensAux false s)) = false := by
  unfold stripHyphens
  exact hdh_prefix _ _ (stripTrailing_pre _)
    (hdh_dropWhile _ _ (hdh_collapse s false))

theorem head_stripHyphens (s : List Char) :
    (stripHyphens s).head? ≠ some '-' := by
  unfold stripHyphens
  rcases stripTrailing_head (s.dropWhile fun c => c == '-') with h | h
  · rw [h]; simp
  · rw [h]; exact head_dropWhileHyphen s

theorem getLast_stripHyphens (s : List Char) :
    (stripHyphens s).getLast? ≠ some '-' := by
  unfold stripHyphens
  exact stripTrailing_getLast _

theorem padIndex_length (n : Nat) : 2 ≤ (padIndex n).length := by
  unfold padIndex
  simp only [List.length_append, List.length_replicate]
  omega

/-- Claim C7 counterexample: for the URL `https://example.com/ch.htm` the
claim demands the trailing `.htm` be removed, predicting `01_ch.html`, but
`_generate_smart_filename` only erases occurrences of the five-character
text `.html`, so it produces `01_ch.htm.html`. -/
theorem C7_counterexample :
    generateSmartFilename 1 ("https://example.com/ch.htm".toList) ['T']
      = "01_ch.htm.html".toList ∧
    "01_ch.htm.html".toList ≠ "01_ch.html".toList := by
  exact ⟨by decide, by decide⟩

/-- Claim C7 (amended): the generator returns the index zero-padded to at
least two digits, an underscore, a stem, and `.html`, where the stem comes
from the URL's last path segment (after stripping trailing slashes) with
every occurrence of `.html` removed (a trailing `.htm` stays), or — when
that segment is empty — from the lowercased stripped title with runs of
characters that are neither word characters nor hyphens collapsed to
single hyphens, substituting the literal `page` only when that slug is
empty; the chosen stem then has hyphen runs collapsed and edge hyphens
trimmed (so the final stem never contains `--` and never starts or ends
with a hyphen); no filesystem-reserved-character sanitization is
performed.  The function is pure, so identical inputs yield identical
output. -/
theorem C7_smart_filename (index : Nat) (url title : List Char) :
    generateSmartFilename index url title
      = padIndex index
          ++ '_' :: (smartStem url title ++ ['.', 'h', 't', 'm', 'l']) ∧
    2 ≤ (padIndex index).length ∧
    hasDoubleHyphen (smartStem url title) = false ∧
    (smartStem url title).head? ≠ some '-' ∧
    (smartStem url title).getLast? ≠ some '-' ∧
    (lastSegment (pyRstripSlash url) = [] → pyStrip title = [] →
      smartStem url title = ['p', 'a', 'g', 'e']) := by
  refine ⟨rfl, padIndex_length index, ?_, ?_, ?_, ?_⟩
  · exact hdh_stripHyphens_collapse _
  · exact head_stripHyphens _
  · exact getLast_stripHyphens _
  · intro h1 h2
    simp only [smartStem, h1, h2]
    rfl

/-- Witness for Claim C7's amended theorem: empty URL and title fall back
to the `page` stem. -/
theorem C7_smart_filename_witness :
    smartStem [] [] = ['p', 'a', 'g', 'e'] :=
  (C7_smart_filename 1 [] []).2.2.2.2.2 rfl rfl

theorem dedupLinks_step (p : List Char × List Char)
    (rest : List (List Char × List Char)) (seen : List (List Char)) :
    dedupLinks (p :: rest) seen
      = if p.2 ∈ seen then dedupLinks rest seen
        else p :: dedupLinks rest (p.2 :: seen) := rfl

theorem dedupLinks_sublist :
    ∀ (l : List (List Char × List Char)) (seen : List (List Char)),
      (dedupLinks l seen).Sublist l := by
  intro l
  induction l with
  | nil => intro seen; exact List.Sublist.refl []
  | cons p rest ih =>
    intro seen
    rw [dedupLinks_step]
    split
    · exact List.Sublist.cons p (ih seen)
    · exact List.Sublist.cons₂ p (ih (p.2 :: seen))

theorem dedupLinks_not_seen :
    ∀ (l : List (List Char × List Char)) (seen : List (List Char))
      (q : List Char × List Char), q ∈ dedupLinks l seen → q.2 ∉ seen := by
  intro l
  induction l with
  | nil => intro seen q h; simp [dedupLinks] at h
  | cons p rest ih =>
    intro seen q hq
    rw [dedupLinks_step] at hq
    by_cases hs : p.2 ∈ seen
    · rw [if_pos hs] at hq
      exact ih seen q hq
    · rw [if_neg hs] at hq
      rcases List.mem_cons.mp hq with rfl | hq'
      · exact hs
      · have := ih (p.2 :: seen) q hq'
        intro hin
        exact this (List.mem_cons_of_mem _ hin)

theorem dedupLinks_nodup :
    ∀ (l : List (List Char × List Char)) (seen : List (List Char)),
      ((dedupLinks l seen).map Prod.snd).Nodup := by
  intro l
  induction l with
  | nil => intro seen; simp [dedupLinks]
  | cons p rest ih =>
    intro seen
    rw [dedupLinks_step]
    split
    · exact ih seen
    · rw [List.map_cons, List.nodup_cons]
      refine ⟨?_, ih (p.2 :: seen)⟩
      intro hmem
      obtain ⟨q, hqmem, hq2⟩ := List.mem_map.mp hmem
      have hnot := dedupLinks_not_seen rest (p.2 :: seen) q hqmem
      exact hnot (by rw [hq2]; exact List.mem_cons_self _ _)

theorem dedupLinks_find :
    ∀ (l : List (List Char × List Char)) (seen : List (List Char))
      (q : List Char × List Char), q ∈ dedupLinks l seen →
      l.find? (fun r => decide (r.2 = q.2)) = some q := by
  intro l
  induction l with
  | nil => intro seen q h; simp [dedupLinks] at h
  | cons p rest ih =>
    intro seen q hq
    rw [dedupLinks_step] at hq
    by_cases hs : p.2 ∈ seen
    · rw [if_pos hs] at hq
      have hnot := dedupLinks_not_seen rest seen q hq
      have hne : ¬p.2 = q.2 := fun he => hnot (he ▸ hs)
      rw [List.find?_cons_of_neg _ (by simpa using hne)]
      exact ih seen q hq
    · rw [if_neg hs] at hq
      rcases List.mem_cons.mp hq with rfl | hq'
      · rw [List.find?_cons_of_pos _ (by simp)]
      · have hnot := dedupLinks_not_seen rest (p.2 :: seen) q hq'
        have hne : ¬p.2 = q.2 := by
          intro he
          exact hnot (by rw [← he]; exact List.mem_cons_self _ _)
        rw [List.find?_cons_of_neg _ (by simpa using hne)]
        exact ih (p.2 :: seen) q hq'

theorem card_insert_eq_card_erase_add_one (a : List Char)
    (A : Finset (List Char)) :
    (insert a A).card = (A.erase a).card + 1 := by
  by_cases h : a ∈ A
  · rw [Finset.card_insert_of_mem h, Finset.card_erase_of_mem h]
    have := Finset.card_pos.mpr ⟨a, h⟩
    omega
  · rw [Finset.card_insert_of_not_mem h, Finset.erase_eq_of_not_mem h]

theorem dedupLinks_length :
    ∀ (l : List (List Char × List Char)) (seen : List (List Char)),
      (dedupLinks l seen).length
        = ((l.map Prod.snd).toFinset \ seen.toFinset).card := by
  intro l
  induction l with
  | nil => intro seen; simp [dedupLinks]
  | cons p rest ih =>
    intro seen
    rw [dedupLinks_step]
    by_cases hs : p.2 ∈ seen
    · rw [if_pos hs, ih seen, List.map_cons, List.toFinset_cons,
        Finset.insert_sdiff_of_mem _ (List.mem_toFinset.mpr hs)]
    · rw [if_neg hs, List.length_cons, ih (p.2 :: seen), List.map_cons,
        List.toFinset_cons, List.toFinset_cons, Finset.sdiff_insert,
        Finset.insert_sdiff_of_not_mem _
          (fun hin => hs (List.mem_toFinset.mp hin)),
        card_insert_eq_card_erase_add_one]

theorem dedupLinks_covers :
    ∀ (l : List (List Char × List Char)) (seen : List (List Char))
      (u : List Char), u ∈ l.map Prod.snd → u ∉ seen →
      ∃ q ∈ dedupLinks l seen, q.2 = u := by
  intro l
  induction l with
  | nil => intro seen u hu _; simp at hu
  | cons p rest ih =>
    intro seen u hu hns
    rw [dedupLinks_step]
    by_cases hs : p.2 ∈ seen
    · rw [if_pos hs]
      have hne : u ≠ p.2 := fun he => hns (he ▸ hs)
      have hu' : u ∈ rest.map Prod.snd := by
        rw [List.map_cons] at hu
        rcases List.mem_cons.mp hu with he | h
        · exact absurd he hne
        · exact h
      exact ih seen u hu' hns
    · rw [if_neg hs]
      by_cases hup : u = p.2
      · exact ⟨p, List.mem_cons_self _ _, hup.symm⟩
      · have hu' : u ∈ rest.map Prod.snd := by
          rw [List.map_cons] at hu
          rcases List.mem_cons.mp hu with he | h
          · exact absurd he hup
          · exact h
        obtain ⟨q, hq, hq2⟩ := ih (p.2 :: seen) u hu' (by simp [hns, hup])
        exact ⟨q, List.mem_cons_of_mem _ hq, hq2⟩

/-- Claim C9: link discovery outputs exactly the qualifying anchors
(non-empty href that is not the bare fragment `#`, resolved URL on the
same host as the base, stripped visible text of at least 3 characters,
text free of the blacklisted markers case-insensitively — encoded in
`anchorLink`), deduplicated by resolved URL: the output is a subsequence
of the qualifying list (first-seen order), its URLs are pairwise distinct,
its length is exactly the number K of distinct qualifying URLs, every
output pair is the first qualifying pair with its URL (so each URL is
paired with its first-seen link text), and every qualifying URL appears. -/
theorem C9_link_discovery (netloc resolve : List Char → List Char)
    (baseUrl : List Char) (anchors : List Anchor) :
    (discoverLinks netloc resolve baseUrl anchors).Sublist
      (anchors.filterMap (anchorLink netloc resolve baseUrl)) ∧
    ((discoverLinks netloc resolve baseUrl anchors).map Prod.snd).Nodup ∧
    (discoverLinks netloc resolve baseUrl anchors).length
      = ((anchors.filterMap (anchorLink netloc resolve baseUrl)).map
          Prod.snd).toFinset.card ∧
    (∀ q ∈ discoverLinks netloc resolve baseUrl anchors,
      (anchors.filterMap (anchorLink netloc resolve baseUrl)).find?
        (fun r => decide (r.2 = q.2)) = some q) ∧
    (∀ u ∈ (anchors.filterMap (anchorLink netloc resolve baseUrl)).map
        Prod.snd,
      ∃ q ∈ discoverLinks netloc resolve baseUrl anchors, q.2 = u) := by
  unfold discoverLinks
  refine ⟨dedupLinks_sublist _ [], dedupLinks_nodup _ [], ?_,
    fun q hq => dedupLinks_find _ [] q hq,
    fun u hu => dedupLinks_covers _ [] u hu (by simp)⟩
  rw [dedupLinks_length _ []]
  simp

/-- Witness for Claim C9's theorem on a one-anchor document whose single
anchor qualifies. -/
theorem C9_link_discovery_witness :
    (discoverLinks (fun _ => []) (fun s => s) []
        [⟨['x'], "abcd".toList⟩]).length
      = ((([⟨['x'], "abcd".toList⟩] : List Anchor).filterMap
          (anchorLink (fun _ => []) (fun s => s) [])).map
            Prod.snd).toFinset.card :=
  (C9_link_discovery (fun _ => []) (fun s => s) []
    [⟨['x'], "abcd".toList⟩]).2.2.1

end Scraper
